import Mathlib

/-!
Verification of the MRZ (machine-readable zone) extraction pipeline of the
passport-data-extractor repository.  The definitions below are shallow
embeddings of the TypeScript functions in `src/unnamed/part_000` (the
maintained copy of `App.tsx`): `extractMRZ`, `cleanMRZLine1`, `parseMRZ`
(with its inner `formatMRZDate`), `otsuThreshold`, and the page/pass loop
of `extractData`.  Strings are modelled as `List Char`, JavaScript numbers
used for Otsu's method as exact rationals, thrown exceptions as `Except`.
-/

namespace Passport

/-! ## Character classes -/

/-- JavaScript `\s` (WhiteSpace ∪ LineTerminator), used by `replace(/\s/g,'')`,
`trim()` and `parseInt`. -/
def isJSWhitespace (c : Char) : Bool :=
  decide (c.toNat = 32) || decide (9 ≤ c.toNat ∧ c.toNat ≤ 13) ||
  decide (c.toNat = 0xa0) || decide (c.toNat = 0x1680) ||
  decide (0x2000 ≤ c.toNat ∧ c.toNat ≤ 0x200a) ||
  decide (c.toNat = 0x2028) || decide (c.toNat = 0x2029) ||
  decide (c.toNat = 0x202f) || decide (c.toNat = 0x205f) ||
  decide (c.toNat = 0x3000) || decide (c.toNat = 0xfeff)

/-- The regex class `[A-Z]`. -/
def isUpperAlpha (c : Char) : Bool :=
  decide ('A' ≤ c ∧ c ≤ 'Z')

/-- The regex class `[0-9]`. -/
def isDigit09 (c : Char) : Bool :=
  decide ('0' ≤ c ∧ c ≤ '9')

/-- The regex class `[A-Z0-9<]`: the MRZ alphabet. -/
def isMrzChar (c : Char) : Bool :=
  isUpperAlpha c || isDigit09 c || decide (c = '<')

/-- The regex class `[A-Z<]`. -/
def isFillerOrAlpha (c : Char) : Bool :=
  isUpperAlpha c || decide (c = '<')

/-- The regex class `[CELA]` of `cleanMRZLine1` step 1. -/
def isCELA (c : Char) : Bool :=
  decide (c = 'C') || decide (c = 'E') || decide (c = 'L') || decide (c = 'A')

/-! ## MRZ locator: `extractMRZ` -/

/-- `.replace(/«/g, '<<')` on one line. -/
def mapAngle (l : List Char) : List Char :=
  l.flatMap fun c => if c = '«' then ['<', '<'] else [c]

/-- `.replace(/\[/g,'<').replace(/\]/g,'<').replace(/\(/g,'<').replace(/\)/g,'<')`. -/
def mapBrackets (l : List Char) : List Char :=
  l.map fun c => if c = '[' ∨ c = ']' ∨ c = '(' ∨ c = ')' then '<' else c

/-- Per-line normalisation of `extractMRZ`: uppercase, strip `\s`, then the
filler look-alike replacements, in source order. -/
def normalizeLine (l : List Char) : List Char :=
  mapBrackets (mapAngle ((l.map Char.toUpper).filter fun c => !isJSWhitespace c))

/-- `text.split('\n')` followed by the per-line normalisation. -/
def normalize (text : List Char) : List (List Char) :=
  (text.splitOn '\n').map normalizeLine

/-- `l.padEnd(44, '<').substring(0, 44)`. -/
def pad44 (l : List Char) : List Char :=
  (l ++ List.replicate (44 - l.length) '<').take 44

/-- `(l2.match(/[0-9]/g) || []).length`. -/
def digitCount (l : List Char) : ℕ :=
  (l.filter isDigit09).length

/-- The acceptance test of the pass-A loop body for an adjacent pair:
`l1.startsWith('P') && l1.length >= 40 && l2.length >= 40` and, after
padding/truncation to 44, more than 5 digits in line 2. -/
def pairCond (l1 l2 : List Char) : Bool :=
  decide (l1.take 1 = ['P']) && decide (40 ≤ l1.length) &&
  decide (40 ≤ l2.length) && decide (5 < digitCount (pad44 l2))

/-- Position `i` of the normalised line list holds a qualifying adjacent
pair for the pass-A scan. -/
def qualifies (L : List (List Char)) (i : ℕ) : Bool :=
  decide (i + 1 < L.length) && pairCond (L.getD i []) (L.getD (i + 1) [])

/-- Pass A: scan adjacent line pairs top to bottom, returning the first
qualifying pair padded/truncated to 44 characters. -/
def passA : List (List Char) → Option (List Char × List Char)
  | l1 :: l2 :: rest =>
    if pairCond l1 l2 then some (pad44 l1, pad44 l2) else passA (l2 :: rest)
  | _ => none

/-- Whether the fixed-width regex `(P[A-Z<][A-Z0-9<]{42})([A-Z0-9<]{44})`
matches `s` at start position `i`. -/
def matchAtB (s : List Char) (i : ℕ) : Bool :=
  let w := s.drop i
  decide (88 ≤ w.length) && decide (w.take 1 = ['P']) &&
  ((w.drop 1).take 1).all isFillerOrAlpha &&
  ((w.drop 2).take 42).all isMrzChar &&
  ((w.drop 44).take 44).all isMrzChar

/-- Pass B: leftmost match of the continuous regex over the joined lines,
split into the two 44-character groups. -/
def passB (s : List Char) : Option (List Char × List Char) :=
  ((List.range s.length).find? fun i => matchAtB s i).map fun i =>
    ((s.drop i).take 44, ((s.drop i).drop 44).take 44)

/-- The locator `extractMRZ`: normalise the transcript, try the line-pair
scan, and fall back to the continuous search. -/
def extractMRZ (text : List Char) : Option (List Char × List Char) :=
  let lines := normalize text
  match passA lines with
  | some p => some p
  | none => passB lines.flatten

/-! ## MRZ corrector: `cleanMRZLine1` -/

/-- `/[A-Z]<<[A-Z]/.test l`. -/
def hasSepPattern (l : List Char) : Bool :=
  (List.range l.length).any fun i =>
    isUpperAlpha (l.getD i '0') && decide (l.getD (i + 1) '0' = '<') &&
    decide (l.getD (i + 2) '0' = '<') && isUpperAlpha (l.getD (i + 3) '0')

/-- `/[A-Z]<<$/.test l`. -/
def endsSepPattern (l : List Char) : Bool :=
  decide (3 ≤ l.length) && isUpperAlpha (l.getD (l.length - 3) '0') &&
  decide (l.getD (l.length - 2) '0' = '<') && decide (l.getD (l.length - 1) '0' = '<')

/-- `/^<</.test l`. -/
def startsSepPattern (l : List Char) : Bool :=
  decide (l.take 2 = ['<', '<'])

/-- Step 1 of the corrector: `replace(/[CELA]{3,}$/, m => '<'.repeat(m.length))`.
The regex matches exactly the maximal trailing `[CELA]` run when it has
length at least 3. -/
def fixTrailingFiller (l : List Char) : List Char :=
  let k := (l.reverse.takeWhile isCELA).length
  if 3 ≤ k then l.take (l.length - k) ++ List.replicate k '<' else l

/-- Whether the regex `([A-Z])CC([A-Z])` matches `l` at position `i`. -/
def ccMatchAt (l : List Char) (i : ℕ) : Bool :=
  decide (i + 3 < l.length) && isUpperAlpha (l.getD i '0') &&
  decide (l.getD (i + 1) '0' = 'C') && decide (l.getD (i + 2) '0' = 'C') &&
  isUpperAlpha (l.getD (i + 3) '0')

/-- Step 2 of the corrector: `replace(/([A-Z])CC([A-Z])/, '$1<<$2')` — rewrite
the leftmost match, keeping the two letters. -/
def replaceCC (l : List Char) : List Char :=
  match (List.range l.length).find? fun i => ccMatchAt l i with
  | none => l
  | some i => l.take (i + 1) ++ '<' :: '<' :: l.drop (i + 3)

/-- The corrector `cleanMRZLine1`: restore fillers misread as C/E/L/A in the
name section (characters after position 5) of MRZ line 1. -/
def cleanMRZLine1 (line : List Char) : List Char :=
  if line.length < 44 then line else
  let nameSection := line.drop 5
  if hasSepPattern nameSection then line else
  if endsSepPattern nameSection || startsSepPattern nameSection then line else
  let cleaned := fixTrailingFiller nameSection
  let cleaned2 := if hasSepPattern cleaned then cleaned else replaceCC cleaned
  line.take 5 ++ cleaned2

/-! ## MRZ field decoder: `parseMRZ` -/

/-- `s.split('<<')`: split on non-overlapping occurrences of `<<`, scanning
left to right. -/
def splitLtLt : List Char → List Char → List (List Char)
  | '<' :: '<' :: rest, acc => acc.reverse :: splitLtLt rest []
  | c :: rest, acc => splitLtLt rest (c :: acc)
  | [], acc => [acc.reverse]

/-- JavaScript `String.prototype.trim`. -/
def trimJS (l : List Char) : List Char :=
  ((l.dropWhile isJSWhitespace).reverse.dropWhile isJSWhitespace).reverse

/-- `parts.join(' ')`. -/
def joinParts : List (List Char) → List Char
  | [] => []
  | [p] => p
  | p :: rest => p ++ ' ' :: joinParts rest

/-- Value of a non-empty digit string. -/
def digitsToNat (ds : List Char) : ℕ :=
  ds.foldl (fun n c => 10 * n + (c.toNat - 48)) 0

/-- JavaScript `parseInt(s, 10)`: skip leading whitespace, accept an optional
sign, then read leading decimal digits; `NaN` (here `none`) when there are
no digits. -/
def parseIntJS (s : List Char) : Option ℤ :=
  match s.dropWhile isJSWhitespace with
  | '-' :: rest =>
    let ds := rest.takeWhile isDigit09
    if ds.isEmpty then none else some (-(digitsToNat ds : ℤ))
  | '+' :: rest =>
    let ds := rest.takeWhile isDigit09
    if ds.isEmpty then none else some (digitsToNat ds : ℤ)
  | rest =>
    let ds := rest.takeWhile isDigit09
    if ds.isEmpty then none else some (digitsToNat ds : ℤ)

/-- The four sequential OCR digit-confusion replaces of `formatMRZDate`:
`O→0`, `I→1`, `S→5`, `Z→2`. -/
def substClean (s : List Char) : List Char :=
  ((((s.map fun c => if c = 'O' then '0' else c).map
      fun c => if c = 'I' then '1' else c).map
      fun c => if c = 'S' then '5' else c).map
      fun c => if c = 'Z' then '2' else c)

/-- The inner `formatMRZDate` of `parseMRZ`.  `currentFullYear` models
`new Date().getFullYear()`.  (The source's `!yymmdd` test for the empty
string is subsumed by the length test.) -/
def formatMRZDate (currentFullYear : ℕ) (yymmdd : List Char) : List Char :=
  if yymmdd.length ≠ 6 ∨ '<' ∈ yymmdd then [] else
  let clean := substClean yymmdd
  let month := (clean.drop 2).take 2
  let day := (clean.drop 4).take 2
  match parseIntJS (clean.take 2) with
  | none => clean
  | some year =>
    let currentYear : ℕ := currentFullYear % 100
    let fullYear : ℤ := if (currentYear : ℤ) + 10 < year then 1900 + year else 2000 + year
    (toString fullYear).data ++ '-' :: (month ++ '-' :: day)

/-- The record produced by `parseMRZ` (the `PassportData` interface). -/
structure PassportData where
  passportNumber : List Char
  fullName : List Char
  surname : List Char
  givenNames : List Char
  nationality : List Char
  dateOfBirth : List Char
  sex : List Char
  dateOfExpiry : List Char
  mrzLine1 : List Char
  mrzLine2 : List Char
deriving DecidableEq, Repr

/-- The decoder `parseMRZ` on a located line pair. -/
def parseMRZ (currentFullYear : ℕ) (line1Raw line2 : List Char) : PassportData :=
  let line1 := cleanMRZLine1 line1Raw
  let issuingCountry := ((line1.drop 2).take 3).filter fun c => c != '<'
  let nameString := splitLtLt (line1.drop 5) []
  let surname := trimJS ((nameString.getD 0 []).map fun c => if c = '<' then ' ' else c)
  let givenNames := trimJS ((nameString.getD 1 []).map fun c => if c = '<' then ' ' else c)
  let passportNumber := (line2.take 9).filter fun c => c != '<'
  let nationality := ((line2.drop 10).take 3).filter fun c => c != '<'
  let dobRaw := (line2.drop 13).take 6
  let sexRaw := (line2.drop 20).take 1
  let expiryRaw := (line2.drop 21).take 6
  let fullName := joinParts ([givenNames, surname].filter fun p => p != [])
  { passportNumber := passportNumber
    fullName := fullName
    surname := surname
    givenNames := givenNames
    nationality := if nationality = [] then issuingCountry else nationality
    dateOfBirth := formatMRZDate currentFullYear dobRaw
    sex := if sexRaw = ['M'] then "Male".data
           else if sexRaw = ['F'] then "Female".data
           else "Unspecified".data
    dateOfExpiry := formatMRZDate currentFullYear expiryRaw
    mrzLine1 := line1
    mrzLine2 := line2 }

/-! ## Otsu threshold (`otsuThreshold`) -/

/-- Loop state of `otsuThreshold`: `sumBg`, `weightBg`, `maxVariance`, `best`,
plus a flag recording that the `break` was taken. -/
structure OtsuState where
  weightBg : ℕ
  sumBg : ℕ
  maxVar : ℚ
  best : ℕ
  done : Bool
deriving DecidableEq, Repr

/-- The between-class variance computed in the loop body (JavaScript floats
modelled as exact rationals).  `weightFg = total - weightBg` is an integer
as in the source. -/
def otsuVar (total sumAll weightBg sumBg : ℕ) : ℚ :=
  let weightFg : ℤ := (total : ℤ) - (weightBg : ℤ)
  let meanBg : ℚ := (sumBg : ℚ) / (weightBg : ℚ)
  let meanFg : ℚ := ((sumAll : ℚ) - (sumBg : ℚ)) / (weightFg : ℚ)
  (weightBg : ℚ) * (weightFg : ℚ) * (meanBg - meanFg) ^ 2

/-- One iteration of the `for t` loop.  `weightBg = total` is exactly the
source's `weightFg === 0` break (cumulative counts never exceed `total`),
and `weightBg = 0` is its `continue`; in both the source updates only
`weightBg` beforehand. -/
def otsuStep (total sumAll : ℕ) (hist : ℕ → ℕ) (s : OtsuState) (t : ℕ) : OtsuState :=
  if s.done then s else
  let weightBg := s.weightBg + hist t
  if weightBg = 0 then { s with weightBg := weightBg } else
  if weightBg = total then { s with weightBg := weightBg, done := true } else
  let sumBg := s.sumBg + t * hist t
  let variance := otsuVar total sumAll weightBg sumBg
  if s.maxVar < variance then
    { weightBg := weightBg, sumBg := sumBg, maxVar := variance, best := t, done := false }
  else
    { s with weightBg := weightBg, sumBg := sumBg }

/-- The `for (t = 0; t < 256; t++)` loop starting from
`sumBg = 0, weightBg = 0, maxVariance = 0, best = 128`. -/
def otsuFromHist (hist : ℕ → ℕ) (total sumAll : ℕ) : ℕ :=
  ((List.range 256).foldl (otsuStep total sumAll hist) ⟨0, 0, 0, 128, false⟩).best

/-- `otsuThreshold(values)`: histogram the values (each a grayscale level
below 256) and run the loop. -/
def otsuThreshold (values : List ℕ) : ℕ :=
  otsuFromHist (fun t => values.count t) values.length
    (∑ i ∈ Finset.range 256, i * values.count i)

/-! ## Orchestrator model (`extractData` page/pass loop)

The three OCR passes on a page.  An oracle `ocr : ℕ → PassKind → Except Unit
(List Char)` gives, per page and pass, either a thrown error (covering both
a `preprocessImageForMRZ` rejection and a `worker.recognize` failure) or the
recognised transcript. -/

/-- Which preprocessing variant a pass uses. -/
inductive PassKind
  | enhanced
  | cropped
  | original
deriving DecidableEq, Repr

/-- Observable events of a run: starting an OCR pass, and terminating the
Tesseract worker. -/
inductive Event
  | attempt (page : ℕ) (kind : PassKind)
  | terminate
deriving DecidableEq, Repr

/-- Outcome of a run: first decoded record, the `MrzNotFound` error thrown
after the loop, or an abort via the outer `catch`. -/
inductive RunOutcome
  | success (d : PassportData)
  | mrzNotFound
  | aborted
deriving DecidableEq, Repr

/-- The body of a guarded pass: `try { ...; mrzLines = extractMRZ(text) }
catch { }` leaves `mrzLines` null both when the pass throws and when the
locator finds nothing. -/
def passResult (ocr : ℕ → PassKind → Except Unit (List Char)) (i : ℕ) (k : PassKind) :
    Option (List Char × List Char) :=
  match ocr i k with
  | Except.error _ => none
  | Except.ok t => extractMRZ t

/-- One iteration of the page loop: pass 1 and pass 2 are wrapped in
`try/catch`, pass 3 is not — its exception escapes the loop body. -/
def runPage (ocr : ℕ → PassKind → Except Unit (List Char)) (i : ℕ) :
    List Event × Except Unit (Option (List Char × List Char)) :=
  match passResult ocr i PassKind.enhanced with
  | some p => ([Event.attempt i PassKind.enhanced], Except.ok (some p))
  | none =>
    match passResult ocr i PassKind.cropped with
    | some p =>
      ([Event.attempt i PassKind.enhanced, Event.attempt i PassKind.cropped],
       Except.ok (some p))
    | none =>
      match ocr i PassKind.original with
      | Except.error e =>
        ([Event.attempt i PassKind.enhanced, Event.attempt i PassKind.cropped,
          Event.attempt i PassKind.original], Except.error e)
      | Except.ok t =>
        ([Event.attempt i PassKind.enhanced, Event.attempt i PassKind.cropped,
          Event.attempt i PassKind.original], Except.ok (extractMRZ t))

/-- The `for (i = 0; i < imageSrcs.length; i++)` loop: stop at the first
page whose passes locate an MRZ and decode it; an uncaught exception ends
the loop early. -/
def extractLoop (ocr : ℕ → PassKind → Except Unit (List Char)) (cy : ℕ) :
    List ℕ → List Event × Except Unit (Option PassportData)
  | [] => ([], Except.ok none)
  | i :: rest =>
    match runPage ocr i with
    | (ev, Except.error e) => (ev, Except.error e)
    | (ev, Except.ok (some lines)) => (ev, Except.ok (some (parseMRZ cy lines.1 lines.2)))
    | (ev, Except.ok none) =>
      let r := extractLoop ocr cy rest
      (ev ++ r.1, r.2)

/-- The whole run after worker creation: `await worker.terminate()` executes
only when the loop exits normally; the `MrzNotFound` throw happens after it,
while a loop exception jumps straight to the outer `catch`. -/
def extractData (ocr : ℕ → PassKind → Except Unit (List Char)) (cy : ℕ) (numPages : ℕ) :
    RunOutcome × List Event :=
  match extractLoop ocr cy (List.range numPages) with
  | (ev, Except.error _) => (RunOutcome.aborted, ev)
  | (ev, Except.ok (some d)) => (RunOutcome.success d, ev ++ [Event.terminate])
  | (ev, Except.ok none) => (RunOutcome.mrzNotFound, ev ++ [Event.terminate])

/-! ## Concrete inputs used by witnesses and counterexamples -/

/-- Corrected ICAO 9303 sample line 1. -/
def icao1 : List Char := "P<UTOERIKSSON<<ANNA<MARIA<<<<<<<<<<<<<<<<<<<".data

/-- Corrected ICAO 9303 sample line 2. -/
def icao2 : List Char := "L898902C36UTO7408122F1204159ZE184226B<<<<<10".data

/-- A transcript holding exactly the ICAO sample pair. -/
def icaoTranscript : List Char := icao1 ++ '\n' :: icao2

/-- A 44-character line whose name section contains `<<` yet in none of the
positions the corrector's guards recognise. -/
def cex4 : List Char := "P<UTOACCB<<1".data ++ List.replicate 32 '<'

/-- Whether `l` contains the substring `<<`. -/
def containsLtLt (l : List Char) : Bool :=
  (List.range l.length).any fun i =>
    decide (l.getD i '0' = '<') && decide (l.getD (i + 1) '0' = '<')

/-- A transcript whose first line starts with `P` but carries characters
outside the MRZ alphabet, over a digit-rich second line. -/
def ctext : List Char :=
  ('P' :: List.replicate 40 '-') ++ '\n' ::
    ("0123456789".data ++ "0123456789".data ++ "0123456789".data ++ "0123456789".data)

/-- An oracle on which every pass of every page throws. -/
def oracleAllFail : ℕ → PassKind → Except Unit (List Char) :=
  fun _ _ => Except.error ()

/-- An oracle on which every pass of page 0 throws while every pass of any
later page recognises the ICAO sample transcript. -/
def oracleP2 : ℕ → PassKind → Except Unit (List Char) :=
  fun i _ => if i = 0 then Except.error () else Except.ok icaoTranscript

/-- An oracle on which every pass recognises the ICAO sample transcript. -/
def oracleGood : ℕ → PassKind → Except Unit (List Char) :=
  fun _ _ => Except.ok icaoTranscript

/-- One-character OCR digit-confusion table of `formatMRZDate`, the
char-by-char reading of its four sequential replaces. -/
def substTable (c : Char) : Char :=
  if c = 'O' then '0' else if c = 'I' then '1' else if c = 'S' then '5'
  else if c = 'Z' then '2' else c

/-! # Theorems -/

/-- C10: for every pair of input lines (and any current year), `parseMRZ`
returns `mrzLine2` exactly equal to its input second line and `mrzLine1`
equal to `cleanMRZLine1` of the input first line: correction touches only
line 1 and decoding never modifies line 2. -/
theorem c10_parseMRZ_frame (y : ℕ) (l1 l2 : List Char) :
    (parseMRZ y l1 l2).mrzLine2 = l2 ∧ (parseMRZ y l1 l2).mrzLine1 = cleanMRZLine1 l1 :=
  ⟨rfl, rfl⟩

theorem formatMRZDate_icao_dob (y : ℕ) (h : y % 100 < 64) :
    formatMRZDate y "740812".data = "1974-08-12".data := by
  have hp : parseIntJS ((substClean "740812".data).take 2) = some 74 := by decide
  simp only [formatMRZDate]
  rw [if_neg (by decide)]
  rw [hp]
  split
  next hn => exact absurd hn (by simp)
  next year hy =>
    injection hy with hy
    subst hy
    rw [if_pos (by omega)]
    decide

theorem formatMRZDate_icao_expiry (y : ℕ) (h : 2 ≤ y % 100) :
    formatMRZDate y "120415".data = "2012-04-15".data := by
  have hp : parseIntJS ((substClean "120415".data).take 2) = some 12 := by decide
  simp only [formatMRZDate]
  rw [if_neg (by decide)]
  rw [hp]
  split
  next hn => exact absurd hn (by simp)
  next year hy =>
    injection hy with hy
    subst hy
    rw [if_neg (by omega)]
    decide

/-- C1 (amended): on the ICAO sample lines the decoder yields the sample
record — for every current year between 2022 and 2063; from 2064 on the
two-digit-year pivot sends the 1974 birth date to 2074. -/
theorem c1_parseMRZ_icao (y : ℕ) (h1 : 2022 ≤ y) (h2 : y ≤ 2063) :
    (parseMRZ y icao1 icao2).passportNumber = "L898902C3".data ∧
    (parseMRZ y icao1 icao2).surname = "ERIKSSON".data ∧
    (parseMRZ y icao1 icao2).givenNames = "ANNA MARIA".data ∧
    (parseMRZ y icao1 icao2).nationality = "UTO".data ∧
    (parseMRZ y icao1 icao2).dateOfBirth = "1974-08-12".data ∧
    (parseMRZ y icao1 icao2).sex = "Female".data ∧
    (parseMRZ y icao1 icao2).dateOfExpiry = "2012-04-15".data := by
  have hd : (parseMRZ y icao1 icao2).dateOfBirth = formatMRZDate y "740812".data := rfl
  have he : (parseMRZ y icao1 icao2).dateOfExpiry = formatMRZDate y "120415".data := rfl
  refine ⟨rfl, rfl, rfl, rfl, ?_, rfl, ?_⟩
  · rw [hd, formatMRZDate_icao_dob y (by omega)]
  · rw [he, formatMRZDate_icao_expiry y (by omega)]

/-- C1 (counterexample): at current year 2064 — which satisfies the claim's
premise `≥ 2022` — the decoded date of birth is `2074-08-12`, not
`1974-08-12`. -/
theorem c1_counterexample :
    2022 ≤ 2064 ∧ (parseMRZ 2064 icao1 icao2).dateOfBirth ≠ "1974-08-12".data ∧
    (parseMRZ 2064 icao1 icao2).dateOfBirth = "2074-08-12".data := by
  refine ⟨by norm_num, by decide, by decide⟩

/-- C1 (witness): the amended theorem applied at current year 2022. -/
theorem c1_witness :
    (parseMRZ 2022 icao1 icao2).passportNumber = "L898902C3".data ∧
    (parseMRZ 2022 icao1 icao2).surname = "ERIKSSON".data ∧
    (parseMRZ 2022 icao1 icao2).givenNames = "ANNA MARIA".data ∧
    (parseMRZ 2022 icao1 icao2).nationality = "UTO".data ∧
    (parseMRZ 2022 icao1 icao2).dateOfBirth = "1974-08-12".data ∧
    (parseMRZ 2022 icao1 icao2).sex = "Female".data ∧
    (parseMRZ 2022 icao1 icao2).dateOfExpiry = "2012-04-15".data :=
  c1_parseMRZ_icao 2022 (by norm_num) (by norm_num)

/-- C6: `formatMRZDate` returns the empty string when the input is not
exactly 6 characters or contains `<`; otherwise the cleaning step is the
character-by-character table `O→0, I→1, S→5, Z→2`, and when parsing the
first two cleaned characters fails the cleaned string itself is returned
rather than an error. -/
theorem c6_formatMRZDate_spec (y : ℕ) (s : List Char) :
    (s.length ≠ 6 ∨ '<' ∈ s → formatMRZDate y s = []) ∧
    substClean s = s.map substTable ∧
    (s.length = 6 → '<' ∉ s → parseIntJS ((substClean s).take 2) = none →
      formatMRZDate y s = substClean s) := by
  refine ⟨?_, ?_, ?_⟩
  · intro h
    simp only [formatMRZDate]
    rw [if_pos h]
  · simp only [substClean, List.map_map]
    refine List.map_congr_left fun c _ => ?_
    by_cases h1 : c = 'O' <;> by_cases h2 : c = 'I' <;> by_cases h3 : c = 'S' <;>
      by_cases h4 : c = 'Z' <;> simp_all [substTable, Function.comp]
  · intro h1 h2 hp
    simp only [formatMRZDate]
    rw [if_neg (by simp [h1, h2])]
    rw [hp]

/-- C6 (witness): the theorem applied to a filler-containing input and to an
input whose cleaned year digits fail to parse. -/
theorem c6_witness :
    formatMRZDate 2024 "7<0812".data = [] ∧
    formatMRZDate 2024 "AB0101".data = "AB0101".data := by
  constructor
  · exact (c6_formatMRZDate_spec 2024 "7<0812".data).1 (by decide)
  · have h := (c6_formatMRZDate_spec 2024 "AB0101".data).2.2 (by decide) (by decide) (by decide)
    rw [h]; decide

/-- C4 (counterexample): a 44-character line whose name section contains
`<<` (between a letter and a digit) on which the corrector still rewrites
the leading `ACCB` to `A<<B`. -/
theorem c4_counterexample :
    44 ≤ cex4.length ∧ containsLtLt (cex4.drop 5) = true ∧ cleanMRZLine1 cex4 ≠ cex4 :=
  ⟨by decide, by decide, by decide⟩

/-- C4 (amended): the corrector returns its input unchanged whenever the
name section matches one of the guards actually tested: a `<<` flanked by
letters, a trailing letter-`<<`, or a leading `<<`. -/
theorem c4_cleanMRZLine1_noop (l : List Char) (hlen : 44 ≤ l.length)
    (hg : hasSepPattern (l.drop 5) = true ∨ endsSepPattern (l.drop 5) = true ∨
      startsSepPattern (l.drop 5) = true) :
    cleanMRZLine1 l = l := by
  unfold cleanMRZLine1
  rw [if_neg (by omega)]
  by_cases hA : hasSepPattern (l.drop 5) = true
  · simp [hA]
  · have hor : (endsSepPattern (l.drop 5) || startsSepPattern (l.drop 5)) = true := by
      rcases hg with h | h | h
      · exact absurd h hA
      · simp [h]
      · simp [h]
    simp [hA, hor]

/-- C4 (witness): the amended theorem applied to the ICAO sample line 1. -/
theorem c4_witness : cleanMRZLine1 icao1 = icao1 :=
  c4_cleanMRZLine1_noop icao1 (by decide) (Or.inl (by decide))

theorem passA_first (L : List (List Char)) (i : ℕ) (h : qualifies L i = true) :
    ∃ j, j ≤ i ∧ qualifies L j = true ∧ (∀ k, k < j → qualifies L k = false) ∧
      passA L = some (pad44 (L.getD j []), pad44 (L.getD (j + 1) [])) := by
  induction L generalizing i with
  | nil => simp [qualifies] at h
  | cons l1 L' ih =>
    cases L' with
    | nil => simp [qualifies] at h
    | cons l2 rest =>
      by_cases hc : pairCond l1 l2 = true
      · refine ⟨0, Nat.zero_le i, by simp [qualifies, hc], fun k hk => absurd hk (Nat.not_lt_zero k), ?_⟩
        simp [passA, hc]
      · have hc' : pairCond l1 l2 = false := by simpa using hc
        cases i with
        | zero => simp [qualifies, hc'] at h
        | succ i' =>
          have h' : qualifies (l2 :: rest) i' = true := by
            simpa [qualifies, Nat.succ_lt_succ_iff] using h
          obtain ⟨j, hj, hq, hmin, hpa⟩ := ih i' h'
          refine ⟨j + 1, by omega, ?_, ?_, ?_⟩
          · simpa [qualifies, Nat.succ_lt_succ_iff] using hq
          · intro k hk
            cases k with
            | zero => simp [qualifies, hc']
            | succ k' =>
              have := hmin k' (by omega)
              simpa [qualifies, Nat.succ_lt_succ_iff] using this
          · rw [show passA (l1 :: l2 :: rest) = passA (l2 :: rest) from by simp [passA, hc']]
            simpa using hpa

/-- C2: whenever some adjacent pair of normalised lines qualifies (line 1
starts with `P`, both lengths at least 40, padded line 2 holds more than 5
digits), the locator returns the topmost qualifying pair, each line padded
with `<` to 44 characters and truncated. -/
theorem c2_extractMRZ_topmost (text : List Char) (i : ℕ)
    (h : qualifies (normalize text) i = true) :
    ∃ j, j ≤ i ∧ qualifies (normalize text) j = true ∧
      (∀ k, k < j → qualifies (normalize text) k = false) ∧
      extractMRZ text = some (pad44 ((normalize text).getD j []),
        pad44 ((normalize text).getD (j + 1) [])) := by
  obtain ⟨j, hj, hq, hmin, hpa⟩ := passA_first (normalize text) i h
  exact ⟨j, hj, hq, hmin, by simp [extractMRZ, hpa]⟩

/-- C2 (witness): the theorem applied to a transcript holding exactly the
ICAO sample pair, which qualifies at position 0. -/
theorem c2_witness :
    ∃ j, j ≤ 0 ∧ qualifies (normalize icaoTranscript) j = true ∧
      (∀ k, k < j → qualifies (normalize icaoTranscript) k = false) ∧
      extractMRZ icaoTranscript = some (pad44 ((normalize icaoTranscript).getD j []),
        pad44 ((normalize icaoTranscript).getD (j + 1) [])) :=
  c2_extractMRZ_topmost icaoTranscript 0 (by decide)

theorem pad44_length (l : List Char) : (pad44 l).length = 44 := by
  simp [pad44]
  omega

theorem pad44_take_one (l : List Char) (h : l.take 1 = ['P']) :
    (pad44 l).take 1 = ['P'] := by
  cases l with
  | nil => simp at h
  | cons c t =>
    simp at h
    subst h
    simp [pad44, List.take_succ_cons]

theorem passA_shape (L : List (List Char)) (p : List Char × List Char)
    (h : passA L = some p) :
    p.1.length = 44 ∧ p.2.length = 44 ∧ p.1.take 1 = ['P'] := by
  induction L with
  | nil => simp [passA] at h
  | cons l1 L' ih =>
    cases L' with
    | nil => simp [passA] at h
    | cons l2 rest =>
      by_cases hc : pairCond l1 l2 = true
      · simp [passA, hc] at h
        have hP : l1.take 1 = ['P'] := by
          simp [pairCond, Bool.and_eq_true, decide_eq_true_eq] at hc
          exact hc.1.1.1
        rw [← h]
        exact ⟨pad44_length l1, pad44_length l2, pad44_take_one l1 hP⟩
      · have hc' : pairCond l1 l2 = false := by simpa using hc
        rw [show passA (l1 :: l2 :: rest) = passA (l2 :: rest) from by simp [passA, hc']] at h
        exact ih h

theorem passB_shape (s : List Char) (p : List Char × List Char)
    (h : passB s = some p) :
    p.1.length = 44 ∧ p.2.length = 44 ∧ p.1.take 1 = ['P'] := by
  unfold passB at h
  cases hf : (List.range s.length).find? (fun i => matchAtB s i) with
  | none => rw [hf] at h; simp at h
  | some i =>
    rw [hf] at h
    simp at h
    have hm : matchAtB s i = true := List.find?_some hf
    simp only [matchAtB, Bool.and_eq_true, decide_eq_true_eq] at hm
    obtain ⟨⟨⟨⟨hlen, hP⟩, _⟩, _⟩, _⟩ := hm
    rw [← h]
    refine ⟨?_, ?_, ?_⟩
    · simp [List.length_take, List.length_drop] at hlen ⊢
      omega
    · simp [List.length_take, List.length_drop] at hlen ⊢
      omega
    · rw [List.take_take]
      simpa using hP

/-- C3 (amended): every pair the locator returns consists of two lines of
length exactly 44 whose first line starts with `P` — via either pass; the
restriction to the MRZ alphabet holds only for the pass-B fallback, not for
the pass-A scan. -/
theorem c3_extractMRZ_shape (text : List Char) (p : List Char × List Char)
    (h : extractMRZ text = some p) :
    p.1.length = 44 ∧ p.2.length = 44 ∧ p.1.take 1 = ['P'] := by
  simp only [extractMRZ] at h
  cases hA : passA (normalize text) with
  | some q =>
    rw [hA] at h
    simp at h
    subst h
    exact passA_shape _ q hA
  | none =>
    rw [hA] at h
    exact passB_shape _ p h

/-- C3 (counterexample): on a transcript whose first line is `P` followed by
40 dashes over a line of 40 digits, the locator returns a pair (via pass A)
whose first line contains `-`, a character outside the alphabet
`{A-Z, 0-9, <}`. -/
theorem c3_counterexample :
    (extractMRZ ctext).isSome = true ∧
    ((extractMRZ ctext).getD ([], [])).1.all isMrzChar = false :=
  ⟨by decide, by decide⟩

/-- C3 (witness): the amended theorem applied to the ICAO sample
transcript. -/
theorem c3_witness :
    (icao1, icao2).1.length = 44 ∧ (icao1, icao2).2.length = 44 ∧
    (icao1, icao2).1.take 1 = ['P'] :=
  c3_extractMRZ_shape icaoTranscript (icao1, icao2) (by decide)

theorem fixTrailingFiller_length (l : List Char) :
    (fixTrailingFiller l).length = l.length := by
  have hk : (l.reverse.takeWhile isCELA).length ≤ l.length := by
    have := (List.takeWhile_sublist (l := l.reverse) isCELA).length_le
    simpa using this
  simp only [fixTrailingFiller]
  split
  · simp [List.length_take]
    omega
  · rfl

theorem fixTrailingFiller_idem (l : List Char) :
    fixTrailingFiller (fixTrailingFiller l) = fixTrailingFiller l := by
  by_cases h3 : 3 ≤ (l.reverse.takeWhile isCELA).length
  · have hk : (l.reverse.takeWhile isCELA).length ≤ l.length := by
      have := (List.takeWhile_sublist (l := l.reverse) isCELA).length_le
      simpa using this
    have hfix : fixTrailingFiller l
        = l.take (l.length - (l.reverse.takeWhile isCELA).length)
          ++ List.replicate (l.reverse.takeWhile isCELA).length '<' := by
      simp only [fixTrailingFiller]
      rw [if_pos h3]
    rw [hfix]
    obtain ⟨k, hk1⟩ : ∃ k, (l.reverse.takeWhile isCELA).length = k + 1 :=
      ⟨(l.reverse.takeWhile isCELA).length - 1, by omega⟩
    have hrev : (l.take (l.length - (l.reverse.takeWhile isCELA).length)
        ++ List.replicate (l.reverse.takeWhile isCELA).length '<').reverse
        = '<' :: (List.replicate k '<'
            ++ (l.take (l.length - (l.reverse.takeWhile isCELA).length)).reverse) := by
      rw [List.reverse_append, List.reverse_replicate, hk1, List.replicate_succ,
        List.cons_append]
    have hcela : isCELA '<' = false := rfl
    simp only [fixTrailingFiller]
    rw [hrev, List.takeWhile_cons, hcela]
    simp
  · have hfix : fixTrailingFiller l = l := by
      simp only [fixTrailingFiller]
      rw [if_neg h3]
    rw [hfix]
    exact hfix

theorem replaceCC_length (l : List Char) : (replaceCC l).length = l.length := by
  unfold replaceCC
  cases hf : (List.range l.length).find? (fun i => ccMatchAt l i) with
  | none => rfl
  | some i =>
    have hm := List.find?_some hf
    simp only [ccMatchAt, Bool.and_eq_true, decide_eq_true_eq] at hm
    have hib : i + 3 < l.length := hm.1.1.1.1
    simp [List.length_append, List.length_take, List.length_drop]
    omega

theorem hasSep_replaceCC (l : List Char) (i : ℕ)
    (hf : (List.range l.length).find? (fun i => ccMatchAt l i) = some i) :
    hasSepPattern (replaceCC l) = true := by
  have hm := List.find?_some hf
  simp only [ccMatchAt, Bool.and_eq_true, decide_eq_true_eq] at hm
  obtain ⟨⟨⟨⟨hib, ha⟩, hC1⟩, hC2⟩, hb⟩ := hm
  have hrc : replaceCC l = l.take (i + 1) ++ '<' :: '<' :: l.drop (i + 3) := by
    unfold replaceCC
    rw [hf]
  have htl : (l.take (i + 1)).length = i + 1 := by
    simp [List.length_take]
    omega
  have g0 : (replaceCC l).getD i '0' = l.getD i '0' := by
    rw [hrc, List.getD_append _ _ _ _ (by omega)]
    rw [List.getD_eq_getElem _ _ (by omega), List.getD_eq_getElem _ _ (by omega)]
    simp [List.getElem_take]
  have g1 : (replaceCC l).getD (i + 1) '0' = '<' := by
    rw [hrc, List.getD_append_right _ _ _ _ (by omega), htl]
    simp
  have g2 : (replaceCC l).getD (i + 2) '0' = '<' := by
    rw [hrc, List.getD_append_right _ _ _ _ (by omega), htl]
    simp [show i + 2 - (i + 1) = 1 from by omega]
  have g3 : (replaceCC l).getD (i + 3) '0' = l.getD (i + 3) '0' := by
    rw [hrc, List.getD_append_right _ _ _ _ (by omega), htl]
    rw [show i + 3 - (i + 1) = 2 from by omega]
    simp only [List.getD_cons_succ, List.getD_cons_zero]
    rw [List.getD_eq_getD_get?, List.getD_eq_getD_get?]
    simp [List.get?_eq_getElem?, List.getElem?_drop]
  unfold hasSepPattern
  refine List.any_eq_true.mpr ⟨i, List.mem_range.mpr ?_, ?_⟩
  · rw [replaceCC_length]
    omega
  · rw [g0, g1, g2, g3]
    simp only [List.getD_eq_getElem?_getD] at ha hb
    simp [ha, hb]

theorem take5_append_drop5 (s X : List Char) (h : 44 ≤ s.length) :
    (s.take 5 ++ X).drop 5 = X := by
  have h5 : (s.take 5).length = 5 := by
    simp [List.length_take]
    omega
  rw [List.drop_left' h5]

theorem take5_append_take5 (s X : List Char) (h : 44 ≤ s.length) :
    (s.take 5 ++ X).take 5 = s.take 5 := by
  have h5 : (s.take 5).length = 5 := by
    simp [List.length_take]
    omega
  rw [List.take_left' h5]

theorem take5_append_length (s X : List Char) (h : 44 ≤ s.length)
    (hX : X.length = (s.drop 5).length) : (s.take 5 ++ X).length = s.length := by
  simp [List.length_append, List.length_take, List.length_drop] at hX ⊢
  omega

/-- C5: the corrector is idempotent — applying `cleanMRZLine1` to its own
output changes nothing. -/
theorem c5_cleanMRZLine1_idem (s : List Char) :
    cleanMRZLine1 (cleanMRZLine1 s) = cleanMRZLine1 s := by
  by_cases h44 : s.length < 44
  · have h : cleanMRZLine1 s = s := by
      unfold cleanMRZLine1
      rw [if_pos h44]
    simp [h]
  · push_neg at h44
    by_cases hA : hasSepPattern (s.drop 5) = true
    · have h : cleanMRZLine1 s = s := by
        simp only [cleanMRZLine1]
        rw [if_neg (by omega), if_pos hA]
      simp [h]
    · by_cases hB : (endsSepPattern (s.drop 5) || startsSepPattern (s.drop 5)) = true
      · have h : cleanMRZLine1 s = s := by
          simp only [cleanMRZLine1]
          rw [if_neg (by omega), if_neg hA, if_pos hB]
        simp [h]
      · by_cases hC : hasSepPattern (fixTrailingFiller (s.drop 5)) = true
        · have hout : cleanMRZLine1 s = s.take 5 ++ fixTrailingFiller (s.drop 5) := by
            simp only [cleanMRZLine1]
            rw [if_neg (by omega), if_neg hA, if_neg hB, if_pos hC]
          have hXlen : (fixTrailingFiller (s.drop 5)).length = (s.drop 5).length :=
            fixTrailingFiller_length _
          rw [hout]
          simp only [cleanMRZLine1]
          rw [if_neg (by rw [take5_append_length s _ h44 hXlen]; omega),
            take5_append_drop5 s _ h44, if_pos hC]
        · cases hfind : (List.range (fixTrailingFiller (s.drop 5)).length).find?
              (fun i => ccMatchAt (fixTrailingFiller (s.drop 5)) i) with
          | some i =>
            have hsep : hasSepPattern (replaceCC (fixTrailingFiller (s.drop 5))) = true :=
              hasSep_replaceCC _ i hfind
            have hout : cleanMRZLine1 s
                = s.take 5 ++ replaceCC (fixTrailingFiller (s.drop 5)) := by
              simp only [cleanMRZLine1]
              rw [if_neg (by omega), if_neg hA, if_neg hB, if_neg hC]
            have hXlen : (replaceCC (fixTrailingFiller (s.drop 5))).length
                = (s.drop 5).length := by
              rw [replaceCC_length, fixTrailingFiller_length]
            rw [hout]
            simp only [cleanMRZLine1]
            rw [if_neg (by rw [take5_append_length s _ h44 hXlen]; omega),
              take5_append_drop5 s _ h44, if_pos hsep]
          | none =>
            have hrc : replaceCC (fixTrailingFiller (s.drop 5))
                = fixTrailingFiller (s.drop 5) := by
              unfold replaceCC
              rw [hfind]
            have hout : cleanMRZLine1 s = s.take 5 ++ fixTrailingFiller (s.drop 5) := by
              simp only [cleanMRZLine1]
              rw [if_neg (by omega), if_neg hA, if_neg hB, if_neg hC, hrc]
            have hXlen : (fixTrailingFiller (s.drop 5)).length = (s.drop 5).length :=
              fixTrailingFiller_length _
            rw [hout]
            by_cases hB2 : (endsSepPattern (fixTrailingFiller (s.drop 5))
                || startsSepPattern (fixTrailingFiller (s.drop 5))) = true
            · simp only [cleanMRZLine1]
              rw [if_neg (by rw [take5_append_length s _ h44 hXlen]; omega),
                take5_append_drop5 s _ h44, if_neg hC, if_pos hB2]
            · simp only [cleanMRZLine1]
              rw [if_neg (by rw [take5_append_length s _ h44 hXlen]; omega),
                take5_append_drop5 s _ h44, if_neg hC, if_neg hB2,
                fixTrailingFiller_idem, if_neg hC, hrc, take5_append_take5 s _ h44]

/-- C7 (amended): within a page, a failure (or negative result) of pass 1
or pass 2 is swallowed and the next pass on the same page is attempted; a
failure of pass 3, however, escapes the page loop and aborts the entire run
via the outer handler — the worker is then not terminated and no further
page is attempted. -/
theorem c7_pass_policy (ocr : ℕ → PassKind → Except Unit (List Char)) (cy : ℕ)
    (i : ℕ) (rest : List ℕ) :
    (passResult ocr i PassKind.enhanced = none →
      Event.attempt i PassKind.cropped ∈ (runPage ocr i).1) ∧
    (passResult ocr i PassKind.enhanced = none →
      passResult ocr i PassKind.cropped = none →
      Event.attempt i PassKind.original ∈ (runPage ocr i).1) ∧
    (passResult ocr i PassKind.enhanced = none →
      passResult ocr i PassKind.cropped = none →
      ocr i PassKind.original = Except.error () →
      extractLoop ocr cy (i :: rest) =
        ([Event.attempt i PassKind.enhanced, Event.attempt i PassKind.cropped,
          Event.attempt i PassKind.original], Except.error ())) ∧
    (∀ n : ℕ, (extractLoop ocr cy (List.range n)).2 = Except.error () →
      (extractData ocr cy n).1 = RunOutcome.aborted ∧
      (extractData ocr cy n).2 = (extractLoop ocr cy (List.range n)).1) := by
  refine ⟨?_, ?_, ?_, ?_⟩
  · intro h1
    cases h2 : passResult ocr i PassKind.cropped with
    | some p => simp [runPage, h1, h2]
    | none =>
      cases h3 : ocr i PassKind.original with
      | error e => simp [runPage, h1, h2, h3]
      | ok t => simp [runPage, h1, h2, h3]
  · intro h1 h2
    cases h3 : ocr i PassKind.original with
    | error e => simp [runPage, h1, h2, h3]
    | ok t => simp [runPage, h1, h2, h3]
  · intro h1 h2 h3
    simp [extractLoop, runPage, h1, h2, h3]
  · intro n h
    rcases hE : extractLoop ocr cy (List.range n) with ⟨ev, r⟩
    rw [hE] at h
    simp only at h
    subst h
    constructor <;> simp [extractData, hE]

/-- C7 (counterexample): with two pages where every pass of page 0 throws
and page 1 would be recognised perfectly, the run aborts — pass 3's failure
fails the whole run and page 1 is never attempted, contradicting
"propagates only as far as advancing to the next page". -/
theorem c7_counterexample :
    (extractData oracleP2 2022 2).1 = RunOutcome.aborted ∧
    Event.attempt 1 PassKind.enhanced ∉ (extractData oracleP2 2022 2).2 :=
  ⟨by decide, by decide⟩

/-- C7 (witness): the amended theorem applied to the all-failing oracle on
a single page. -/
theorem c7_witness :
    Event.attempt 0 PassKind.cropped ∈ (runPage oracleAllFail 0).1 ∧
    Event.attempt 0 PassKind.original ∈ (runPage oracleAllFail 0).1 ∧
    extractLoop oracleAllFail 2022 (0 :: []) =
      ([Event.attempt 0 PassKind.enhanced, Event.attempt 0 PassKind.cropped,
        Event.attempt 0 PassKind.original], Except.error ()) ∧
    (extractData oracleAllFail 2022 1).1 = RunOutcome.aborted :=
  ⟨(c7_pass_policy oracleAllFail 2022 0 []).1 rfl,
   (c7_pass_policy oracleAllFail 2022 0 []).2.1 rfl rfl,
   (c7_pass_policy oracleAllFail 2022 0 []).2.2.1 rfl rfl rfl,
   ((c7_pass_policy oracleAllFail 2022 0 []).2.2.2 1 rfl).1⟩

/-- C8: evaluation at the failing input.  On a run whose single page fails
all three passes, the loop exception jumps past `worker.terminate()`: the
trace holds zero terminate events even though the run ends (aborted), while
a successful run terminates the worker exactly once.  The code therefore
does not release the engine on every failure path as claimed. -/
theorem c8_terminate_eval :
    (extractData oracleAllFail 2022 1).2.count Event.terminate = 0 ∧
    (extractData oracleAllFail 2022 1).1 = RunOutcome.aborted ∧
    (extractData oracleGood 2022 1).2.count Event.terminate = 1 :=
  ⟨by decide, by decide, by decide⟩

theorem otsu_foldl_done (total sumAll : ℕ) (hist : ℕ → ℕ) (L : List ℕ) (s : OtsuState)
    (h : s.done = true) :
    L.foldl (otsuStep total sumAll hist) s = s := by
  induction L with
  | nil => rfl
  | cons t L ih =>
    simp only [List.foldl_cons]
    rw [show otsuStep total sumAll hist s t = s from by simp [otsuStep, h]]
    exact ih

theorem otsu_foldl_zero (total sumAll : ℕ) (hist : ℕ → ℕ) (L : List ℕ)
    (hzero : ∀ t ∈ L, hist t = 0) (m : ℚ) (bb : ℕ) :
    L.foldl (otsuStep total sumAll hist) ⟨0, 0, m, bb, false⟩ = ⟨0, 0, m, bb, false⟩ := by
  induction L with
  | nil => rfl
  | cons t L ih =>
    have h0 : hist t = 0 := hzero t (by simp)
    simp only [List.foldl_cons]
    rw [show otsuStep total sumAll hist ⟨0, 0, m, bb, false⟩ t = ⟨0, 0, m, bb, false⟩ from by
      simp [otsuStep, h0]]
    exact ih fun u hu => hzero u (by simp [hu])

theorem otsu_foldl_stable (total sumAll : ℕ) (hist : ℕ → ℕ) (L : List ℕ)
    (hzero : ∀ t ∈ L, hist t = 0) (w sb : ℕ) (V : ℚ) (bb : ℕ)
    (hw : w ≠ 0) (hwt : w ≠ total) (hvar : otsuVar total sumAll w sb ≤ V) :
    L.foldl (otsuStep total sumAll hist) ⟨w, sb, V, bb, false⟩ = ⟨w, sb, V, bb, false⟩ := by
  induction L with
  | nil => rfl
  | cons t L ih =>
    have h0 : hist t = 0 := hzero t (by simp)
    simp only [List.foldl_cons]
    rw [show otsuStep total sumAll hist ⟨w, sb, V, bb, false⟩ t = ⟨w, sb, V, bb, false⟩ from by
      simp [otsuStep, h0, hw, hwt, not_lt.mpr hvar]]
    exact ih fun u hu => hzero u (by simp [hu])

/-- On a two-cluster histogram the between-class variance first computed
(at threshold `a`) is the classical `na·nb·(a-b)²`. -/
theorem otsuVar_two_cluster (a b na nb : ℕ) (hna : 0 < na) (hnb : 0 < nb) :
    otsuVar (na + nb) (a * na + b * nb) na (a * na)
      = (na : ℚ) * (nb : ℚ) * ((a : ℚ) - (b : ℚ)) ^ 2 := by
  unfold otsuVar
  have h1 : ((na : ℚ)) ≠ 0 := by positivity
  have h2 : ((nb : ℚ)) ≠ 0 := by positivity
  push_cast
  rw [show ((na : ℚ) + nb - na) = (nb : ℚ) from by ring]
  field_simp

/-- The Otsu loop on a two-cluster histogram returns the lower cluster
value `a`: the variance score is constant over all candidate thresholds in
`[a, b)` and the strict-improvement test keeps the first one. -/
theorem otsuFromHist_two_cluster (hist : ℕ → ℕ) (a b na nb : ℕ)
    (hab : a < b) (hb : b < 256) (hna : 0 < na) (hnb : 0 < nb)
    (hha : hist a = na) (hhb : hist b = nb)
    (hzero : ∀ t, t ≠ a → t ≠ b → hist t = 0) :
    otsuFromHist hist (na + nb) (a * na + b * nb) = a := by
  have hVpos : 0 < otsuVar (na + nb) (a * na + b * nb) na (a * na) := by
    rw [otsuVar_two_cluster a b na nb hna hnb]
    have h0 : ((a : ℚ) - b) ≠ 0 := sub_ne_zero.mpr (by exact_mod_cast hab.ne)
    have h1 : (0 : ℚ) < na := by exact_mod_cast hna
    have h2 : (0 : ℚ) < nb := by exact_mod_cast hnb
    exact mul_pos (mul_pos h1 h2) (pow_two_pos_of_ne_zero h0)
  have hsplit : List.range 256
      = (((List.range a ++ [a]) ++ (List.range (b - a - 1)).map (fun j => a + 1 + j))
          ++ [b]) ++ (List.range (255 - b)).map (fun j => b + 1 + j) := by
    have e1 : List.range 256
        = List.range (b + 1) ++ (List.range (255 - b)).map (fun j => b + 1 + j) := by
      rw [← List.range_add]
      congr 1
      omega
    have e2 : List.range b
        = List.range (a + 1) ++ (List.range (b - a - 1)).map (fun j => a + 1 + j) := by
      rw [← List.range_add]
      congr 1
      omega
    rw [e1, List.range_succ, e2, List.range_succ]
  have hz1 : ∀ t ∈ List.range a, hist t = 0 := by
    intro t ht
    have := List.mem_range.mp ht
    exact hzero t (by omega) (by omega)
  have hz2 : ∀ t ∈ (List.range (b - a - 1)).map (fun j => a + 1 + j), hist t = 0 := by
    intro t ht
    simp only [List.mem_map, List.mem_range] at ht
    obtain ⟨j, hj, rfl⟩ := ht
    exact hzero _ (by omega) (by omega)
  have hstep_a : otsuStep (na + nb) (a * na + b * nb) hist ⟨0, 0, 0, 128, false⟩ a
      = ⟨na, a * na, otsuVar (na + nb) (a * na + b * nb) na (a * na), a, false⟩ := by
    simp [otsuStep, hha, hna.ne', show na ≠ na + nb from by omega, hVpos]
  have hstep_b : otsuStep (na + nb) (a * na + b * nb) hist
      ⟨na, a * na, otsuVar (na + nb) (a * na + b * nb) na (a * na), a, false⟩ b
      = ⟨na + nb, a * na, otsuVar (na + nb) (a * na + b * nb) na (a * na), a, true⟩ := by
    simp [otsuStep, hhb, hna.ne']
  unfold otsuFromHist
  rw [hsplit, List.foldl_append, List.foldl_append, List.foldl_append, List.foldl_append,
    otsu_foldl_zero _ _ _ _ hz1 0 128]
  rw [show List.foldl (otsuStep (na + nb) (a * na + b * nb) hist)
      (⟨0, 0, 0, 128, false⟩ : OtsuState) [a]
      = ⟨na, a * na, otsuVar (na + nb) (a * na + b * nb) na (a * na), a, false⟩ from by
    simpa using hstep_a]
  rw [otsu_foldl_stable _ _ _ _ hz2 na (a * na)
    (otsuVar (na + nb) (a * na + b * nb) na (a * na)) a hna.ne'
    (by omega) (le_refl _)]
  rw [show List.foldl (otsuStep (na + nb) (a * na + b * nb) hist)
      (⟨na, a * na, otsuVar (na + nb) (a * na + b * nb) na (a * na), a, false⟩ : OtsuState) [b]
      = ⟨na + nb, a * na, otsuVar (na + nb) (a * na + b * nb) na (a * na), a, true⟩ from by
    simpa using hstep_b]
  rw [otsu_foldl_done _ _ _ _ _ rfl]

/-- On a single-value histogram the break fires at the unique value (or the
loop never accumulates weight at all), so the initial `best = 128`
survives. -/
theorem otsuFromHist_degenerate (hist : ℕ → ℕ) (a n sumAll : ℕ) (ha : a < 256)
    (hha : hist a = n) (hzero : ∀ t, t ≠ a → hist t = 0) :
    otsuFromHist hist n sumAll = 128 := by
  rcases Nat.eq_zero_or_pos n with hn | hn
  · have hz : ∀ t ∈ List.range 256, hist t = 0 := by
      intro t _
      by_cases hta : t = a
      · rw [hta, hha, hn]
      · exact hzero t hta
    unfold otsuFromHist
    rw [otsu_foldl_zero _ _ _ _ hz 0 128]
  · have hsplit : List.range 256
        = (List.range a ++ [a]) ++ (List.range (255 - a)).map (fun j => a + 1 + j) := by
      have e1 : List.range 256
          = List.range (a + 1) ++ (List.range (255 - a)).map (fun j => a + 1 + j) := by
        rw [← List.range_add]
        congr 1
        omega
      rw [e1, List.range_succ]
    have hz1 : ∀ t ∈ List.range a, hist t = 0 := by
      intro t ht
      have := List.mem_range.mp ht
      exact hzero t (by omega)
    have hstep : otsuStep n sumAll hist ⟨0, 0, 0, 128, false⟩ a = ⟨n, 0, 0, 128, true⟩ := by
      simp [otsuStep, hha, hn.ne']
    unfold otsuFromHist
    rw [hsplit, List.foldl_append, List.foldl_append,
      otsu_foldl_zero _ _ _ _ hz1 0 128]
    rw [show List.foldl (otsuStep n sumAll hist) (⟨0, 0, 0, 128, false⟩ : OtsuState) [a]
        = ⟨n, 0, 0, 128, true⟩ from by simpa using hstep]
    rw [otsu_foldl_done _ _ _ _ _ rfl]

theorem length_eq_sum_count (v : List ℕ) (h : ∀ x ∈ v, x < 256) :
    v.length = ∑ t ∈ Finset.range 256, v.count t := by
  induction v with
  | nil => simp
  | cons x v ih =>
    have hx : x ∈ Finset.range 256 := Finset.mem_range.mpr (h x (by simp))
    have ihh := ih fun y hy => h y (by simp [hy])
    simp only [List.length_cons, List.count_cons, beq_iff_eq]
    rw [Finset.sum_add_distrib, ← ihh,
      Finset.sum_ite_eq (Finset.range 256) x (fun _ => 1)]
    simp [hx]

/-- Count-level form of the two-cluster result. -/
theorem otsuThreshold_two_cluster (v : List ℕ) (a b : ℕ) (hab : a < b) (hb : b < 256)
    (hca : 0 < v.count a) (hcb : 0 < v.count b)
    (hz : ∀ t, t ≠ a → t ≠ b → v.count t = 0) :
    otsuThreshold v = a := by
  have hmem : ∀ x ∈ v, x = a ∨ x = b := by
    intro x hx
    by_contra hcon
    push_neg at hcon
    have h0 := hz x hcon.1 hcon.2
    rw [List.count_eq_zero] at h0
    exact h0 hx
  have h256 : ∀ x ∈ v, x < 256 := by
    intro x hx
    rcases hmem x hx with rfl | rfl <;> omega
  have hsub : ({a, b} : Finset ℕ) ⊆ Finset.range 256 := by
    intro x hx
    simp only [Finset.mem_insert, Finset.mem_singleton] at hx
    rcases hx with rfl | rfl <;> exact Finset.mem_range.mpr (by omega)
  have hlen : v.length = v.count a + v.count b := by
    rw [length_eq_sum_count v h256]
    rw [← Finset.sum_subset hsub (by
      intro x _ hnx
      simp only [Finset.mem_insert, Finset.mem_singleton] at hnx
      push_neg at hnx
      exact hz x hnx.1 hnx.2)]
    rw [Finset.sum_pair hab.ne]
  have hsum : (∑ i ∈ Finset.range 256, i * v.count i)
      = a * v.count a + b * v.count b := by
    rw [← Finset.sum_subset hsub (by
      intro x _ hnx
      simp only [Finset.mem_insert, Finset.mem_singleton] at hnx
      push_neg at hnx
      rw [hz x hnx.1 hnx.2, Nat.mul_zero])]
    rw [Finset.sum_pair hab.ne]
  unfold otsuThreshold
  rw [hlen, hsum]
  exact otsuFromHist_two_cluster (fun t => v.count t) a b (v.count a) (v.count b)
    hab hb hca hcb rfl rfl hz

/-- C9 (amended): the Otsu computation is deterministic — equal histograms
of in-range values give equal thresholds — and defaults to 128 on a
degenerate single-value histogram; on a two-cluster histogram with values
`a < b` the returned threshold is the lower cluster value `a` (ties are
broken towards the lowest candidate), not a value strictly between the two
cluster means. -/
theorem c9_otsu_spec :
    (∀ v₁ v₂ : List ℕ, (∀ x ∈ v₁, x < 256) → (∀ x ∈ v₂, x < 256) →
      (∀ t, v₁.count t = v₂.count t) → otsuThreshold v₁ = otsuThreshold v₂) ∧
    (∀ (v : List ℕ) (a : ℕ), a < 256 → (∀ x ∈ v, x = a) → otsuThreshold v = 128) ∧
    (∀ (v : List ℕ) (a b : ℕ), a < b → b < 256 → 0 < v.count a → 0 < v.count b →
      (∀ t, t ≠ a → t ≠ b → v.count t = 0) → otsuThreshold v = a) := by
  refine ⟨?_, ?_, ?_⟩
  · intro v₁ v₂ h1 h2 hc
    have hfun : (fun t => v₁.count t) = (fun t => v₂.count t) := funext hc
    have hlen : v₁.length = v₂.length := by
      rw [length_eq_sum_count v₁ h1, length_eq_sum_count v₂ h2]
      exact Finset.sum_congr rfl fun i _ => hc i
    have hsum : (∑ i ∈ Finset.range 256, i * v₁.count i)
        = ∑ i ∈ Finset.range 256, i * v₂.count i :=
      Finset.sum_congr rfl fun i _ => by rw [hc i]
    unfold otsuThreshold
    rw [hfun, hlen, hsum]
  · intro v a ha hall
    have hcnt : v.count a = v.length := List.count_eq_length.mpr fun x hx => (hall x hx).symm
    have hz : ∀ t, t ≠ a → v.count t = 0 := fun t ht =>
      List.count_eq_zero.mpr fun hmem => ht (hall t hmem)
    unfold otsuThreshold
    exact otsuFromHist_degenerate _ a v.length _ ha hcnt hz
  · exact fun v a b hab hb hca hcb hz =>
      otsuThreshold_two_cluster v a b hab hb hca hcb hz

/-- C9 (counterexample): on the two-cluster histogram of `[0, 0, 255]` the
cluster means are 0 and 255 but the returned threshold is 0 — equal to the
lower mean, hence not strictly between the means. -/
theorem c9_counterexample :
    otsuThreshold [0, 0, 255] = 0 ∧
    ¬(0 < otsuThreshold [0, 0, 255] ∧ otsuThreshold [0, 0, 255] < 255) := by
  have h : otsuThreshold [0, 0, 255] = 0 := by
    refine otsuThreshold_two_cluster [0, 0, 255] 0 255 (by omega) (by omega)
      (by decide) (by decide) ?_
    intro t h0 h255
    apply List.count_eq_zero.mpr
    intro hmem
    simp only [List.mem_cons, List.not_mem_nil] at hmem
    rcases hmem with rfl | rfl | rfl | hfalse
    · exact absurd rfl h0
    · exact absurd rfl h0
    · exact absurd rfl h255
    · exact hfalse
  exact ⟨h, by omega⟩

/-- C9 (witness): the theorem's degenerate-histogram clause applied to a
concrete single-value input. -/
theorem c9_witness : otsuThreshold [7, 7, 7] = 128 :=
  c9_otsu_spec.2.1 [7, 7, 7] 7 (by norm_num) (by decide)

end Passport
